import Mathlib

/-!
Verification development for the CTC loss core (aslp-nnet/ctc-loss.cc).

The development has two layers.

The stats / outlier-policy layer (Ctc::StatAndAverageLossCheck,
Ctc::StatAndLossCheck, Ctc::StatOnly) is embedded over a small model `Fl`
of IEEE floating point values: a finite value is an exact rational and the
non-finite values (plus/minus infinity and NaN) are explicit constructors,
because this layer's behaviour (KALDI_ISFINITE tests, the NaN-propagating
gradient-sum guard) depends on non-finite values.

The forward-backward / gradient layer (Ctc::Eval, Ctc::EvalParallel and the
matrix kernels they call, which live in aslp-cudamatrix and are not part of
this repository's sources) is embedded in an idealized exact-arithmetic
semantics over the rationals, working in the linear probability domain: the
log-domain primitives log, exp and log-add used by the kernels are exact
homomorphisms onto multiplication, so a log-domain table identity within
floating-point tolerance corresponds to an exact identity of the underlying
path sums, which is what is proved here.
-/

/-- Model of a BaseFloat value as seen by the stats policies: an exact
finite rational, or one of the non-finite IEEE values. -/
inductive Fl where
  | fin : ℚ → Fl
  | pinf : Fl
  | ninf : Fl
  | nan : Fl
deriving DecidableEq, Repr

/-- IEEE comparison x less than y: any comparison with NaN is false. -/
def flLt : Fl → Fl → Bool
  | Fl.fin a, Fl.fin b => decide (a < b)
  | Fl.fin _, Fl.pinf => true
  | Fl.ninf, Fl.fin _ => true
  | Fl.ninf, Fl.pinf => true
  | _, _ => false

/-- IEEE addition: NaN propagates, infinities of opposite sign give NaN. -/
def flAdd : Fl → Fl → Fl
  | Fl.nan, _ => Fl.nan
  | _, Fl.nan => Fl.nan
  | Fl.pinf, Fl.ninf => Fl.nan
  | Fl.ninf, Fl.pinf => Fl.nan
  | Fl.pinf, _ => Fl.pinf
  | _, Fl.pinf => Fl.pinf
  | Fl.ninf, _ => Fl.ninf
  | _, Fl.ninf => Fl.ninf
  | Fl.fin a, Fl.fin b => Fl.fin (a + b)

/-- KALDI_ISFINITE. -/
def flIsFinite : Fl → Bool
  | Fl.fin _ => true
  | _ => false

/-- The gradient buffer diff, row-and-column indexed.  Row r of the padded
batch holds frame r / num_sequence of sequence r % num_sequence. -/
abbrev Mat := ℕ → ℕ → Fl

/-- Running statistics of the Ctc object that the three policies mutate
(fields named after the corresponding member variables of the class). -/
structure CtcStatState where
  normal_num : ℕ
  stat_period : ℕ
  loss_sum : ℚ
  loss_sum_bak : ℚ
  loss_square_sum : ℚ
  loss_square_sum_bak : ℚ
  obj : Fl
  obj_progress : Fl
  frames : ℕ
  frames_progress : ℕ
  sequences_num : ℕ
  sequences_progress : ℕ
deriving DecidableEq, Repr

/-- CuSubVector::SetZero applied to one row of diff. -/
def setRowZero (r : ℕ) (d : Mat) : Mat :=
  fun r' c => if r' = r then Fl.fin 0 else d r' c

/-- The rejection loop for sequence s: for t in [0, fnS) set row
t * N + s of diff to zero. -/
def dropSeqDiff (N s fnS : ℕ) (d : Mat) : Mat :=
  (List.range fnS).foldl (fun m t => setRowZero (t * N + s) m) d

/-- The 6-sigma window test of StatAndAverageLossCheck, with
mean = loss_sum_ / normal_num_ and sigma = sqrt(loss_square_sum_ /
normal_num_) as in the source.  The source brackets
loss_per_frame between mean - 6 sigma and mean + 6 sigma; over a
nonnegative radicand q this is equivalent to the square-free test
(loss_per_frame - mean)^2 <= 36 * q used here to stay inside ℚ, and for a
negative radicand the source's sqrt yields NaN so both bracket comparisons
are false, matching the explicit 0 <= q conjunct. -/
def avgSigmaOk (st : CtcStatState) (fnS : ℕ) (z : ℚ) : Bool :=
  let lpf := z / (fnS : ℚ)
  let mean := st.loss_sum / (st.normal_num : ℚ)
  let q := st.loss_square_sum / (st.normal_num : ℚ)
  decide (0 ≤ q) && decide ((lpf - mean) * (lpf - mean) ≤ 36 * q)

/-- The full acceptance condition of the check branch of
StatAndAverageLossCheck: KALDI_ISFINITE(pzx) and the 6-sigma window and
0 < pzx < 3000. -/
def avgAcceptB (st : CtcStatState) (fnS : ℕ) : Fl → Bool
  | Fl.fin z => avgSigmaOk st fnS z && decide (0 < z) && decide (z < 3000)
  | _ => false

/-- The acceptance condition of the bootstrap branch of
StatAndAverageLossCheck: KALDI_ISFINITE(pzx) and 0 < pzx < 3000. -/
def bootAcceptB : Fl → Bool
  | Fl.fin z => decide (0 < z) && decide (z < 3000)
  | _ => false

/-- One iteration of the per-sequence loop of Ctc::StatAndAverageLossCheck
(ctc-loss.cc lines 234-293) for sequence s with frame count fnS and loss
pzxS.  The frame counter updates, performed after the branch in the
source, are folded into every branch. -/
def avgStep (N s fnS : ℕ) (pzxS : Fl) (std : CtcStatState × Mat) :
    CtcStatState × Mat :=
  let st := std.1
  let d := std.2
  if st.normal_num < st.stat_period / 2 then
    -- bootstrap branch: accumulate statistics, never touch diff
    match pzxS with
    | Fl.fin z =>
      if bootAcceptB (Fl.fin z) = true then
        let lpf : ℚ := z / (fnS : ℚ)
        ({ st with
            normal_num := st.normal_num + 1
            loss_sum := st.loss_sum + lpf
            loss_sum_bak := st.loss_sum_bak + lpf
            loss_square_sum := st.loss_square_sum + lpf * lpf
            loss_square_sum_bak := st.loss_square_sum_bak + lpf * lpf
            obj := flAdd st.obj (Fl.fin z)
            obj_progress := flAdd st.obj_progress (Fl.fin z)
            frames := st.frames + fnS
            frames_progress := st.frames_progress + fnS }, d)
      else
        ({ st with
            frames := st.frames + fnS
            frames_progress := st.frames_progress + fnS }, d)
    | _ =>
        ({ st with
            frames := st.frames + fnS
            frames_progress := st.frames_progress + fnS }, d)
  else
    -- check branch: 6-sigma outlier test, reject drops this sequence's diff
    match pzxS with
    | Fl.fin z =>
      if avgAcceptB st fnS (Fl.fin z) = true then
        let lpf : ℚ := z / (fnS : ℚ)
        let nn := st.normal_num + 1
        let ls := st.loss_sum + lpf
        let lss := st.loss_square_sum + lpf * lpf
        if nn = st.stat_period then
          -- half-window reset of the rolling statistics
          ({ st with
              normal_num := st.stat_period / 2
              loss_sum := ls - st.loss_sum_bak
              loss_square_sum := lss - st.loss_square_sum_bak
              loss_sum_bak := ls - st.loss_sum_bak
              loss_square_sum_bak := lss - st.loss_square_sum_bak
              obj := flAdd st.obj (Fl.fin z)
              obj_progress := flAdd st.obj_progress (Fl.fin z)
              frames := st.frames + fnS
              frames_progress := st.frames_progress + fnS }, d)
        else
          ({ st with
              normal_num := nn
              loss_sum := ls
              loss_square_sum := lss
              obj := flAdd st.obj (Fl.fin z)
              obj_progress := flAdd st.obj_progress (Fl.fin z)
              frames := st.frames + fnS
              frames_progress := st.frames_progress + fnS }, d)
      else
        ({ st with
            frames := st.frames + fnS
            frames_progress := st.frames_progress + fnS },
         dropSeqDiff N s fnS d)
    | _ =>
        ({ st with
            frames := st.frames + fnS
            frames_progress := st.frames_progress + fnS },
         dropSeqDiff N s fnS d)

/-- One iteration of the per-sequence loop of Ctc::StatAndLossCheck
(ctc-loss.cc lines 309-326). -/
def statAndLossCheckStep (N s fnS : ℕ) (pzxS : Fl)
    (std : CtcStatState × Mat) : CtcStatState × Mat :=
  let st := std.1
  let d := std.2
  if (flLt (Fl.fin 3000) pzxS || flLt pzxS (Fl.fin 0)) = true then
    ({ st with
        frames := st.frames + fnS
        frames_progress := st.frames_progress + fnS },
     dropSeqDiff N s fnS d)
  else
    ({ st with
        obj := flAdd st.obj pzxS
        obj_progress := flAdd st.obj_progress pzxS
        frames := st.frames + fnS
        frames_progress := st.frames_progress + fnS }, d)

/-- One iteration of the per-sequence loop of Ctc::StatOnly
(ctc-loss.cc lines 336-341); diff is never modified. -/
def statOnlyStep (fnS : ℕ) (pzxS : Fl) (std : CtcStatState × Mat) :
    CtcStatState × Mat :=
  let st := std.1
  ({ st with
      obj := flAdd st.obj pzxS
      obj_progress := flAdd st.obj_progress pzxS
      frames := st.frames + fnS
      frames_progress := st.frames_progress + fnS }, std.2)

/-- Iterate a loop body over s = 0, 1, ..., n-1 in order. -/
def foldSteps {α : Type} (f : ℕ → α → α) : ℕ → α → α
  | 0, a => a
  | n + 1, a => f n (foldSteps f n a)

/-- Sum of row r of diff over columns 0..C-1 with IEEE addition. -/
def rowSumFl (C : ℕ) (d : Mat) (r : ℕ) : Fl :=
  ((List.range C).map fun c => d r c).foldr flAdd (Fl.fin 0)

/-- CuMatrix::Sum of the R x C gradient buffer with IEEE addition. -/
def matSumFl (R C : ℕ) (d : Mat) : Fl :=
  ((List.range R).map fun r => rowSumFl C d r).foldr flAdd (Fl.fin 0)

/-- Ctc::StatAndAverageLossCheck (ctc-loss.cc lines 229-302): the
per-sequence loop, then the global finiteness guard that zeroes the whole
buffer when its sum is not finite, then the sequence counters. -/
def statAndAverageLossCheck (N : ℕ) (fn : ℕ → ℕ) (pzx : ℕ → Fl)
    (R C : ℕ) (std : CtcStatState × Mat) : CtcStatState × Mat :=
  let r1 := foldSteps (fun s std' => avgStep N s (fn s) (pzx s) std') N std
  let d2 := if flIsFinite (matSumFl R C r1.2) = true then r1.2
            else fun _ _ => Fl.fin 0
  ({ r1.1 with
      sequences_progress := r1.1.sequences_progress + N
      sequences_num := r1.1.sequences_num + N }, d2)

/-- Ctc::StatAndLossCheck (ctc-loss.cc lines 304-329): the per-sequence
loop then the sequence counters; there is no global finiteness guard. -/
def statAndLossCheck (N : ℕ) (fn : ℕ → ℕ) (pzx : ℕ → Fl)
    (std : CtcStatState × Mat) : CtcStatState × Mat :=
  let r1 := foldSteps (fun s std' => statAndLossCheckStep N s (fn s) (pzx s) std') N std
  ({ r1.1 with
      sequences_progress := r1.1.sequences_progress + N
      sequences_num := r1.1.sequences_num + N }, r1.2)

/-- Ctc::StatOnly (ctc-loss.cc lines 331-344): accumulate every loss; the
diff buffer is returned untouched and there is no finiteness guard. -/
def statOnly (N : ℕ) (fn : ℕ → ℕ) (pzx : ℕ → Fl)
    (std : CtcStatState × Mat) : CtcStatState × Mat :=
  let r1 := foldSteps (fun s std' => statOnlyStep (fn s) (pzx s) std') N std
  ({ r1.1 with
      sequences_progress := r1.1.sequences_progress + N
      sequences_num := r1.1.sequences_num + N }, r1.2)

/-- Concrete sample statistics state used by witnesses: check phase
(normal_num = stat_period / 2), rolling mean 1 and rolling mean square 1. -/
def stSample : CtcStatState :=
  { normal_num := 5, stat_period := 10, loss_sum := 5, loss_sum_bak := 0,
    loss_square_sum := 5, loss_square_sum_bak := 0, obj := Fl.fin 0,
    obj_progress := Fl.fin 0, frames := 0, frames_progress := 0,
    sequences_num := 0, sequences_progress := 0 }

/-- Concrete sample state still in the bootstrap phase. -/
def stBoot : CtcStatState :=
  { normal_num := 0, stat_period := 10, loss_sum := 0, loss_sum_bak := 0,
    loss_square_sum := 0, loss_square_sum_bak := 0, obj := Fl.fin 0,
    obj_progress := Fl.fin 0, frames := 0, frames_progress := 0,
    sequences_num := 0, sequences_progress := 0 }

/-- Concrete sample gradient buffer with every entry one. -/
def dSample : Mat := fun _ _ => Fl.fin 1

/-- Concrete gradient buffer with a NaN entry everywhere. -/
def matNan : Mat := fun _ _ => Fl.nan

/-- The rejection loop zeroes exactly the rows t * N + s with t < fnS: in
terms of row index r, exactly those with r % N = s and r / N < fnS. -/
lemma dropSeqDiff_apply (N s : ℕ) (hs : s < N) (d : Mat) :
    ∀ fnS r c, dropSeqDiff N s fnS d r c =
      if r % N = s ∧ r / N < fnS then Fl.fin 0 else d r c := by
  intro fnS
  induction fnS with
  | zero => intro r c; simp [dropSeqDiff]
  | succ n ih =>
    intro r c
    have hN : 0 < N := Nat.lt_of_le_of_lt (Nat.zero_le s) hs
    have hsplit : dropSeqDiff N s (n + 1) d =
        setRowZero (n * N + s) (dropSeqDiff N s n d) := by
      simp [dropSeqDiff, List.range_succ]
    rw [hsplit, setRowZero]
    by_cases hr : r = n * N + s
    · subst hr
      have h1 : (n * N + s) % N = s := by
        rw [Nat.mul_comm, Nat.mul_add_mod]
        exact Nat.mod_eq_of_lt hs
      have h2 : (n * N + s) / N = n := by
        rw [Nat.mul_comm, Nat.mul_add_div hN]
        simp [Nat.div_eq_of_lt hs]
      simp [h1, h2]
    · rw [if_neg hr, ih r c]
      by_cases hm : r % N = s
      · have hne : r / N ≠ n := by
          intro hdn
          apply hr
          have hdm := Nat.div_add_mod r N
          rw [hdn, hm] at hdm
          calc r = N * n + s := hdm.symm
          _ = n * N + s := by rw [Nat.mul_comm]
        have hiff : (r / N < n + 1) ↔ (r / N < n) := by omega
        simp [hm, hiff]
      · simp [hm]

/-- C3: a rejection - by the sum-threshold policy (loss above 3000 or below
0) or by the check phase of the windowed average-loss policy - zeroes
exactly the gradient rows t * N + s with t below the sequence's frame
count, leaves all other rows unchanged, leaves the running objective sums
unchanged, and still adds the frame count to the cumulative and progress
frame counters. -/
theorem ctc_c3_reject_rows (N s fnS : ℕ) (pzxS : Fl) (st : CtcStatState)
    (d : Mat) (hs : s < N) :
    ((flLt (Fl.fin 3000) pzxS || flLt pzxS (Fl.fin 0)) = true →
      (∀ r c, (statAndLossCheckStep N s fnS pzxS (st, d)).2 r c =
        if r % N = s ∧ r / N < fnS then Fl.fin 0 else d r c) ∧
      (statAndLossCheckStep N s fnS pzxS (st, d)).1.obj = st.obj ∧
      (statAndLossCheckStep N s fnS pzxS (st, d)).1.obj_progress = st.obj_progress ∧
      (statAndLossCheckStep N s fnS pzxS (st, d)).1.frames = st.frames + fnS ∧
      (statAndLossCheckStep N s fnS pzxS (st, d)).1.frames_progress =
        st.frames_progress + fnS) ∧
    (st.stat_period / 2 ≤ st.normal_num → avgAcceptB st fnS pzxS = false →
      (∀ r c, (avgStep N s fnS pzxS (st, d)).2 r c =
        if r % N = s ∧ r / N < fnS then Fl.fin 0 else d r c) ∧
      (avgStep N s fnS pzxS (st, d)).1.obj = st.obj ∧
      (avgStep N s fnS pzxS (st, d)).1.obj_progress = st.obj_progress ∧
      (avgStep N s fnS pzxS (st, d)).1.frames = st.frames + fnS ∧
      (avgStep N s fnS pzxS (st, d)).1.frames_progress =
        st.frames_progress + fnS) := by
  constructor
  · intro hrej
    refine ⟨fun r c => ?_, ?_, ?_, ?_, ?_⟩ <;>
      simp [statAndLossCheckStep, hrej, dropSeqDiff_apply N s hs]
  · intro hchk hacc
    have hnot : ¬ st.normal_num < st.stat_period / 2 := Nat.not_lt.mpr hchk
    cases pzxS with
    | fin z =>
      refine ⟨fun r c => ?_, ?_, ?_, ?_, ?_⟩ <;>
        simp [avgStep, hnot, hacc, dropSeqDiff_apply N s hs]
    | pinf =>
      refine ⟨fun r c => ?_, ?_, ?_, ?_, ?_⟩ <;>
        simp [avgStep, hnot, dropSeqDiff_apply N s hs]
    | ninf =>
      refine ⟨fun r c => ?_, ?_, ?_, ?_, ?_⟩ <;>
        simp [avgStep, hnot, dropSeqDiff_apply N s hs]
    | nan =>
      refine ⟨fun r c => ?_, ?_, ?_, ?_, ?_⟩ <;>
        simp [avgStep, hnot, dropSeqDiff_apply N s hs]

/-- Witness for ctc_c3_reject_rows at a concrete rejected utterance. -/
theorem ctc_c3_reject_rows_witness :
    (statAndLossCheckStep 2 1 1 (Fl.fin 3500) (stSample, dSample)).2 1 0 = Fl.fin 0 ∧
    (statAndLossCheckStep 2 1 1 (Fl.fin 3500) (stSample, dSample)).2 0 0 = Fl.fin 1 := by
  have h := ((ctc_c3_reject_rows 2 1 1 (Fl.fin 3500) stSample dSample
    (by decide)).1 (by decide)).1
  constructor
  · rw [h 1 0]; decide
  · rw [h 0 0]; decide

/-- C2 (amended): in the check phase (normal_num at least stat_period / 2)
an utterance is accepted - its loss added to the objective and the rolling
sums and its diff left untouched - exactly when its loss is finite, its
per-frame loss passes the 6-sigma window test, and its total loss is
strictly between 0 and 3000; in the bootstrap phase every finite utterance
with total loss strictly between 0 and 3000 is accepted unconditionally. -/
theorem ctc_c2_accept_characterization (N s fnS : ℕ) (pzxS : Fl)
    (st : CtcStatState) (d : Mat) :
    (st.stat_period / 2 ≤ st.normal_num →
      (∀ z : ℚ, pzxS = Fl.fin z → avgAcceptB st fnS pzxS = true →
        (avgStep N s fnS pzxS (st, d)).2 = d ∧
        (avgStep N s fnS pzxS (st, d)).1.obj = flAdd st.obj (Fl.fin z) ∧
        (avgStep N s fnS pzxS (st, d)).1.normal_num =
          (if st.normal_num + 1 = st.stat_period then st.stat_period / 2
           else st.normal_num + 1) ∧
        (avgStep N s fnS pzxS (st, d)).1.loss_sum =
          (if st.normal_num + 1 = st.stat_period
           then st.loss_sum + z / (fnS : ℚ) - st.loss_sum_bak
           else st.loss_sum + z / (fnS : ℚ)) ∧
        (avgStep N s fnS pzxS (st, d)).1.loss_square_sum =
          (if st.normal_num + 1 = st.stat_period
           then st.loss_square_sum + z / (fnS : ℚ) * (z / (fnS : ℚ)) -
             st.loss_square_sum_bak
           else st.loss_square_sum + z / (fnS : ℚ) * (z / (fnS : ℚ)))) ∧
      (avgAcceptB st fnS pzxS = false →
        (avgStep N s fnS pzxS (st, d)).1.obj = st.obj ∧
        (avgStep N s fnS pzxS (st, d)).1.normal_num = st.normal_num ∧
        (avgStep N s fnS pzxS (st, d)).1.loss_sum = st.loss_sum ∧
        (avgStep N s fnS pzxS (st, d)).1.loss_square_sum = st.loss_square_sum)) ∧
    (st.normal_num < st.stat_period / 2 →
      (∀ z : ℚ, pzxS = Fl.fin z → bootAcceptB pzxS = true →
        (avgStep N s fnS pzxS (st, d)).2 = d ∧
        (avgStep N s fnS pzxS (st, d)).1.obj = flAdd st.obj (Fl.fin z) ∧
        (avgStep N s fnS pzxS (st, d)).1.normal_num = st.normal_num + 1 ∧
        (avgStep N s fnS pzxS (st, d)).1.loss_sum =
          st.loss_sum + z / (fnS : ℚ)) ∧
      (bootAcceptB pzxS = false →
        (avgStep N s fnS pzxS (st, d)).2 = d ∧
        (avgStep N s fnS pzxS (st, d)).1.obj = st.obj ∧
        (avgStep N s fnS pzxS (st, d)).1.normal_num = st.normal_num ∧
        (avgStep N s fnS pzxS (st, d)).1.loss_sum = st.loss_sum)) := by
  constructor
  · intro hchk
    have hnot : ¬ st.normal_num < st.stat_period / 2 := Nat.not_lt.mpr hchk
    constructor
    · intro z hz hacc
      subst hz
      by_cases hr : st.normal_num + 1 = st.stat_period <;>
        simp [avgStep, hnot, hacc, hr]
    · intro hacc
      cases pzxS with
      | fin z => simp [avgStep, hnot, hacc]
      | pinf => simp [avgStep, hnot]
      | ninf => simp [avgStep, hnot]
      | nan => simp [avgStep, hnot]
  · intro hboot
    constructor
    · intro z hz hacc
      subst hz
      simp [avgStep, hboot, hacc]
    · intro hacc
      cases pzxS with
      | fin z => simp [avgStep, hboot, hacc]
      | pinf => simp [avgStep, hboot]
      | ninf => simp [avgStep, hboot]
      | nan => simp [avgStep, hboot]


/-- Counterexample to C2 as stated: an utterance with total loss exactly 0
is finite, passes the 6-sigma window test, and has total loss in the
closed interval [0, 3000], yet the check branch rejects it (the source
tests 0 < pzx, not 0 <= pzx): the rolling count and objective are left
unchanged and its gradient row is zeroed. -/
theorem ctc_c2_counterexample :
    stSample.stat_period / 2 ≤ stSample.normal_num ∧
    flIsFinite (Fl.fin 0) = true ∧
    avgSigmaOk stSample 1 0 = true ∧
    (0 : ℚ) ≤ 0 ∧ (0 : ℚ) ≤ 3000 ∧
    (avgStep 1 0 1 (Fl.fin 0) (stSample, dSample)).1.normal_num =
      stSample.normal_num ∧
    (avgStep 1 0 1 (Fl.fin 0) (stSample, dSample)).1.obj = stSample.obj ∧
    (avgStep 1 0 1 (Fl.fin 0) (stSample, dSample)).2 0 0 = Fl.fin 0 ∧
    dSample 0 0 = Fl.fin 1 := by
  refine ⟨by decide, rfl, ?_, le_refl 0, by norm_num, ?_, ?_, ?_, rfl⟩
  · norm_num [avgSigmaOk, stSample]
  · norm_num [avgStep, stSample, avgAcceptB, avgSigmaOk]
  · norm_num [avgStep, stSample, avgAcceptB, avgSigmaOk]
  · norm_num [avgStep, stSample, avgAcceptB, avgSigmaOk, dropSeqDiff,
      List.range_succ, setRowZero]

/-- Witness for ctc_c2_accept_characterization at a concrete accepted
utterance in the check phase. -/
theorem ctc_c2_accept_characterization_witness :
    (avgStep 1 0 1 (Fl.fin 1) (stSample, dSample)).2 = dSample ∧
    (avgStep 1 0 1 (Fl.fin 1) (stSample, dSample)).1.obj =
      flAdd stSample.obj (Fl.fin 1) ∧
    (avgStep 1 0 1 (Fl.fin 1) (stSample, dSample)).1.normal_num =
      (if stSample.normal_num + 1 = stSample.stat_period
       then stSample.stat_period / 2 else stSample.normal_num + 1) := by
  have h := ((ctc_c2_accept_characterization 1 0 1 (Fl.fin 1) stSample
    dSample).1 (by decide)).1 1 rfl
    (by norm_num [avgAcceptB, avgSigmaOk, stSample])
  exact ⟨h.1, h.2.1, h.2.2.1⟩

/-- C8: with stat_period at least 2, the check branch (the only place
dividing by normal_num) is entered only when normal_num is at least
stat_period / 2, hence positive; the bootstrap branch never decreases
normal_num and increases it by at most one; the half-window reset sets it
to exactly stat_period / 2; and normal_num at least stat_period / 2 is
preserved by every step, so it holds in every state reaching the
division. -/
theorem ctc_c8_normal_num_guard (N s fnS : ℕ) (pzxS : Fl)
    (st : CtcStatState) (d : Mat) (hp : 2 ≤ st.stat_period) :
    (st.stat_period / 2 ≤ st.normal_num → 0 < st.normal_num) ∧
    (st.normal_num < st.stat_period / 2 →
      st.normal_num ≤ (avgStep N s fnS pzxS (st, d)).1.normal_num ∧
      (avgStep N s fnS pzxS (st, d)).1.normal_num ≤ st.normal_num + 1) ∧
    (st.stat_period / 2 ≤ st.normal_num → avgAcceptB st fnS pzxS = true →
      st.normal_num + 1 = st.stat_period →
      (avgStep N s fnS pzxS (st, d)).1.normal_num = st.stat_period / 2) ∧
    (st.stat_period / 2 ≤ st.normal_num →
      st.stat_period / 2 ≤ (avgStep N s fnS pzxS (st, d)).1.normal_num) := by
  have hhalf : 1 ≤ st.stat_period / 2 := by omega
  refine ⟨fun h => by omega, ?_, ?_, ?_⟩
  · intro hboot
    cases pzxS with
    | fin z =>
      by_cases hacc : bootAcceptB (Fl.fin z) = true
      · constructor <;> simp [avgStep, hboot, hacc]
      · rw [Bool.not_eq_true] at hacc
        constructor <;> simp [avgStep, hboot, hacc]
    | pinf => constructor <;> simp [avgStep, hboot]
    | ninf => constructor <;> simp [avgStep, hboot]
    | nan => constructor <;> simp [avgStep, hboot]
  · intro hchk hacc hreset
    have hnot : ¬ st.normal_num < st.stat_period / 2 := Nat.not_lt.mpr hchk
    cases pzxS with
    | fin z => simp [avgStep, hnot, hacc, hreset]
    | pinf => simp [avgAcceptB] at hacc
    | ninf => simp [avgAcceptB] at hacc
    | nan => simp [avgAcceptB] at hacc
  · intro hchk
    have hnot : ¬ st.normal_num < st.stat_period / 2 := Nat.not_lt.mpr hchk
    cases pzxS with
    | fin z =>
      by_cases hacc : avgAcceptB st fnS (Fl.fin z) = true
      · by_cases hreset : st.normal_num + 1 = st.stat_period
        · simp [avgStep, hnot, hacc, hreset]
        · simp [avgStep, hnot, hacc, hreset]; omega
      · rw [Bool.not_eq_true] at hacc
        simp [avgStep, hnot, hacc]; omega
    | pinf => simp [avgStep, hnot]; omega
    | ninf => simp [avgStep, hnot]; omega
    | nan => simp [avgStep, hnot]; omega

/-- Witness for ctc_c8_normal_num_guard at a concrete check-phase state. -/
theorem ctc_c8_normal_num_guard_witness :
    2 ≤ stSample.stat_period ∧ 0 < stSample.normal_num := by
  exact ⟨by decide, (ctc_c8_normal_num_guard 1 0 1 (Fl.fin 1) stSample
    dSample (by decide)).1 (by decide)⟩

/-- C10: while the windowed average-loss policy is still bootstrapping, the
gradient buffer is never modified - in particular an abnormal utterance
(non-finite loss or total loss outside the open interval (0, 3000)) is
silently excluded from the rolling statistics and the objective with its
gradient rows left untouched. -/
theorem ctc_c10_bootstrap_no_zeroing (N s fnS : ℕ) (pzxS : Fl)
    (st : CtcStatState) (d : Mat)
    (hB : st.normal_num < st.stat_period / 2) :
    (avgStep N s fnS pzxS (st, d)).2 = d ∧
    (bootAcceptB pzxS = false →
      (avgStep N s fnS pzxS (st, d)).1.normal_num = st.normal_num ∧
      (avgStep N s fnS pzxS (st, d)).1.loss_sum = st.loss_sum ∧
      (avgStep N s fnS pzxS (st, d)).1.loss_square_sum = st.loss_square_sum ∧
      (avgStep N s fnS pzxS (st, d)).1.obj = st.obj ∧
      (avgStep N s fnS pzxS (st, d)).1.obj_progress = st.obj_progress ∧
      (avgStep N s fnS pzxS (st, d)).1.frames = st.frames + fnS) := by
  constructor
  · cases pzxS with
    | fin z =>
      by_cases hacc : bootAcceptB (Fl.fin z) = true
      · simp [avgStep, hB, hacc]
      · rw [Bool.not_eq_true] at hacc
        simp [avgStep, hB, hacc]
    | pinf => simp [avgStep, hB]
    | ninf => simp [avgStep, hB]
    | nan => simp [avgStep, hB]
  · intro hacc
    cases pzxS with
    | fin z => refine ⟨?_, ?_, ?_, ?_, ?_, ?_⟩ <;> simp [avgStep, hB, hacc]
    | pinf => refine ⟨?_, ?_, ?_, ?_, ?_, ?_⟩ <;> simp [avgStep, hB]
    | ninf => refine ⟨?_, ?_, ?_, ?_, ?_, ?_⟩ <;> simp [avgStep, hB]
    | nan => refine ⟨?_, ?_, ?_, ?_, ?_, ?_⟩ <;> simp [avgStep, hB]

/-- Witness for ctc_c10_bootstrap_no_zeroing at a concrete bootstrap-phase
state and an out-of-range loss. -/
theorem ctc_c10_bootstrap_no_zeroing_witness :
    (avgStep 1 0 1 (Fl.fin 5000) (stBoot, dSample)).2 = dSample ∧
    (avgStep 1 0 1 (Fl.fin 5000) (stBoot, dSample)).1.normal_num =
      stBoot.normal_num := by
  have h := ctc_c10_bootstrap_no_zeroing 1 0 1 (Fl.fin 5000) stBoot dSample
    (by decide)
  exact ⟨h.1, (h.2 (by norm_num [bootAcceptB])).1⟩

/-- Folding IEEE addition over a list of finite values is finite. -/
lemma foldr_flAdd_fin (l : List Fl) (h : ∀ x ∈ l, ∃ q, x = Fl.fin q) :
    ∃ q, l.foldr flAdd (Fl.fin 0) = Fl.fin q := by
  induction l with
  | nil => exact ⟨0, rfl⟩
  | cons a t ih =>
    obtain ⟨qa, ha⟩ := h a (List.mem_cons_self a t)
    obtain ⟨qt, ht⟩ := ih (fun x hx => h x (List.mem_cons_of_mem _ hx))
    exact ⟨qa + qt, by simp [ha, ht, flAdd]⟩

/-- The sum of the all-zero gradient buffer is a finite value. -/
lemma matSumFl_zero_fin (R C : ℕ) :
    ∃ q, matSumFl R C (fun _ _ => Fl.fin 0) = Fl.fin q := by
  apply foldr_flAdd_fin
  intro x hx
  obtain ⟨r, _, hr⟩ := List.mem_map.mp hx
  obtain ⟨q, hq⟩ := foldr_flAdd_fin ((List.range C).map fun _ => Fl.fin 0)
    (by intro y hy; obtain ⟨c, _, hc⟩ := List.mem_map.mp hy; exact ⟨0, hc.symm⟩)
  exact ⟨q, by rw [← hr]; exact hq⟩

/-- The per-sequence loop of StatOnly never modifies the diff buffer. -/
lemma statOnly_fold_diff (N : ℕ) (fn : ℕ → ℕ) (pzx : ℕ → Fl)
    (std : CtcStatState × Mat) :
    (foldSteps (fun s std' => statOnlyStep (fn s) (pzx s) std') N std).2 =
      std.2 := by
  induction N with
  | zero => rfl
  | succ n ih => exact ih

/-- When no sequence trips the sum-threshold test, the per-sequence loop
of StatAndLossCheck never modifies the diff buffer; since the function
performs nothing else on diff after the loop, the buffer is returned as
is - in particular, non-finite entries survive: there is no global
finiteness guard in this policy. -/
lemma statAndLossCheck_no_reject_diff (N : ℕ) (fn : ℕ → ℕ) (pzx : ℕ → Fl)
    (std : CtcStatState × Mat)
    (h : ∀ s, s < N →
      (flLt (Fl.fin 3000) (pzx s) || flLt (pzx s) (Fl.fin 0)) = false) :
    (statAndLossCheck N fn pzx std).2 = std.2 := by
  have hfold : ∀ n, n ≤ N → (foldSteps (fun s std' =>
      statAndLossCheckStep N s (fn s) (pzx s) std') n std).2 = std.2 := by
    intro n
    induction n with
    | zero => intro _; rfl
    | succ k ih =>
      intro hk
      have hs := h k (by omega)
      show (statAndLossCheckStep N k (fn k) (pzx k) (foldSteps (fun s std' =>
        statAndLossCheckStep N s (fn s) (pzx s) std') k std)).2 = std.2
      simp only [statAndLossCheckStep, hs, Bool.false_eq_true, if_false]
      exact ih (by omega)
  exact hfold N (le_refl N)

/-- C4 (amended): only the windowed average-loss policy runs the global
finiteness guard - the gradient it returns always has a finite total sum
(a non-finite sum is replaced by the all-zero buffer) - while the
stat-only policy returns the gradient buffer entirely unchanged, and the
sum-threshold policy applies nothing to the buffer beyond the
per-sequence rejections: when no sequence is rejected the buffer is
returned unchanged, with no finiteness guard. -/
theorem ctc_c4_guard_only_avg (N : ℕ) (fn : ℕ → ℕ) (pzx : ℕ → Fl)
    (R C : ℕ) (st : CtcStatState) (d : Mat) :
    flIsFinite (matSumFl R C
      (statAndAverageLossCheck N fn pzx R C (st, d)).2) = true ∧
    (statOnly N fn pzx (st, d)).2 = d ∧
    ((∀ s, s < N →
        (flLt (Fl.fin 3000) (pzx s) || flLt (pzx s) (Fl.fin 0)) = false) →
      (statAndLossCheck N fn pzx (st, d)).2 = d) := by
  refine ⟨?_, statOnly_fold_diff N fn pzx (st, d),
    fun h => statAndLossCheck_no_reject_diff N fn pzx (st, d) h⟩
  show flIsFinite (matSumFl R C
    (if flIsFinite (matSumFl R C (foldSteps (fun s std' =>
      avgStep N s (fn s) (pzx s) std') N (st, d)).2) = true
     then (foldSteps (fun s std' =>
      avgStep N s (fn s) (pzx s) std') N (st, d)).2
     else fun _ _ => Fl.fin 0)) = true
  by_cases hfin : flIsFinite (matSumFl R C (foldSteps (fun s std' =>
      avgStep N s (fn s) (pzx s) std') N (st, d)).2) = true
  · rw [if_pos hfin]; exact hfin
  · rw [if_neg hfin]
    obtain ⟨q, hq⟩ := matSumFl_zero_fin R C
    rw [hq]; rfl

/-- Witness for ctc_c4_guard_only_avg: a concrete non-rejected batch
through the sum-threshold policy leaves the buffer unchanged. -/
theorem ctc_c4_guard_only_avg_witness :
    (statAndLossCheck 1 (fun _ => 2) (fun _ => Fl.fin 5)
      (stSample, dSample)).2 = dSample :=
  (ctc_c4_guard_only_avg 1 (fun _ => 2) (fun _ => Fl.fin 5) 2 2 stSample
    dSample).2.2 (fun s _ => by decide)

/-- Counterexample to C4 as stated: a gradient buffer consisting of NaN
entries is returned unchanged both by the stat-only policy and by the
sum-threshold policy fed an in-range loss - its total sum is not finite
and it is not zeroed, so no global finiteness guard ran in either
policy. -/
theorem ctc_c4_counterexample :
    flIsFinite (matSumFl 1 1
      (statOnly 1 (fun _ => 1) (fun _ => Fl.fin 1) (stSample, matNan)).2) =
      false ∧
    (statOnly 1 (fun _ => 1) (fun _ => Fl.fin 1) (stSample, matNan)).2 0 0 =
      Fl.nan ∧
    flIsFinite (matSumFl 1 1
      (statAndLossCheck 1 (fun _ => 1) (fun _ => Fl.fin 1)
        (stSample, matNan)).2) = false ∧
    (statAndLossCheck 1 (fun _ => 1) (fun _ => Fl.fin 1)
      (stSample, matNan)).2 0 0 = Fl.nan := by
  refine ⟨?_, ?_, ?_, ?_⟩
  · simp [statOnly, foldSteps, statOnlyStep, matSumFl, rowSumFl, matNan,
      List.range_succ, flAdd, flIsFinite]
  · simp [statOnly, foldSteps, statOnlyStep, matNan]
  · norm_num [statAndLossCheck, foldSteps, statAndLossCheckStep, flLt,
      matSumFl, rowSumFl, matNan, List.range_succ, flAdd, flIsFinite]
  · norm_num [statAndLossCheck, foldSteps, statAndLossCheckStep, flLt,
      matNan]

/-- Label expansion (ctc-loss.cc lines 41-46): position 2l+1 carries
label l, every even position carries the blank class 0. -/
def expLab (label : List ℕ) (s : ℕ) : ℕ :=
  if s % 2 = 1 then label.getD (s / 2) 0 else 0

/-- Modelled from the spec: the forward (alpha) recursion of
ComputeCtcAlpha (the aslp-cudamatrix kernel is not part of this
repository's sources), in the linear probability domain over ℚ.
S is the expanded label length 2L+1, lab the expanded label sequence,
p the posterior matrix.  Initialization alpha(0,0) = p(0, blank),
alpha(0,1) = p(0, label_1) when it exists; recurrence
alpha(t,s) = (alpha(t-1,s) + alpha(t-1,s-1) [s >= 1]
+ alpha(t-1,s-2) [s >= 2, s odd, lab s differs from lab (s-2)])
* p(t, lab s). -/
def alphaLin (S : ℕ) (lab : ℕ → ℕ) (p : ℕ → ℕ → ℚ) : ℕ → ℕ → ℚ
  | 0, s => if s = 0 ∨ (s = 1 ∧ 1 < S) then p 0 (lab s) else 0
  | t + 1, s =>
      (alphaLin S lab p t s +
        (if 1 ≤ s then alphaLin S lab p t (s - 1) else 0) +
        (if 2 ≤ s ∧ s % 2 = 1 ∧ lab s ≠ lab (s - 2)
         then alphaLin S lab p t (s - 2) else 0)) * p (t + 1) (lab s)

/-- Modelled from the spec: the backward (beta) recursion of
ComputeCtcBeta in the linear domain; index d counts down from the last
frame, so frame t = T-1-d.  beta excludes the emission at its own frame:
beta(T-1, S-1) = beta(T-1, S-2) = 1 and
beta(t,s) = sum over allowed successors s' of beta(t+1,s') * p(t+1, lab s'). -/
def betaLin (T S : ℕ) (lab : ℕ → ℕ) (p : ℕ → ℕ → ℚ) : ℕ → ℕ → ℚ
  | 0, s => if s = S - 1 ∨ s = S - 2 then 1 else 0
  | d + 1, s =>
      betaLin T S lab p d s * p (T - 1 - d) (lab s) +
      (if s + 1 < S
       then betaLin T S lab p d (s + 1) * p (T - 1 - d) (lab (s + 1)) else 0) +
      (if s + 2 < S ∧ s % 2 = 1 ∧ lab s ≠ lab (s + 2)
       then betaLin T S lab p d (s + 2) * p (T - 1 - d) (lab (s + 2)) else 0)

/-- Total likelihood read off the alpha table (ctc-loss.cc lines 62-64,
log_add of the two final expanded positions, here exact in the linear
domain). -/
def pzxEval (p : ℕ → ℕ → ℚ) (label : List ℕ) (T : ℕ) : ℚ :=
  alphaLin (2 * label.length + 1) (expLab label) p (T - 1) (2 * label.length) +
  alphaLin (2 * label.length + 1) (expLab label) p (T - 1) (2 * label.length - 1)

/-- Modelled from the spec: soft occupancy of class k at frame t,
the alpha-beta product summed over expanded positions carrying label k
(the log-domain log-add accumulation of ComputeCtcError, linearly). -/
def gammaEval (p : ℕ → ℕ → ℚ) (label : List ℕ) (T t k : ℕ) : ℚ :=
  ∑ pos ∈ Finset.range (2 * label.length + 1),
    if expLab label pos = k
    then alphaLin (2 * label.length + 1) (expLab label) p t pos *
         betaLin T (2 * label.length + 1) (expLab label) p (T - 1 - t) pos
    else 0

/-- Modelled from the spec: the error term of ComputeCtcError after the
MulElements(net_out) step: minus the occupancy normalized by the total
likelihood. -/
def ctcErrPEval (p : ℕ → ℕ → ℚ) (label : List ℕ) (T t k : ℕ) : ℚ :=
  -(gammaEval p label T t k / pzxEval p label T)

/-- The gradient before clipping (ctc-loss.cc lines 70-79):
diff = err - net_out * rowsum(err). -/
def diffRawEval (p : ℕ → ℕ → ℚ) (label : List ℕ) (T C t k : ℕ) : ℚ :=
  ctcErrPEval p label T t k -
    p t k * ∑ kp ∈ Finset.range C, ctcErrPEval p label T t kp

/-- CuMatrix::ApplyFloor on one entry. -/
def applyFloor (f x : ℚ) : ℚ := if x < f then f else x

/-- CuMatrix::ApplyCeiling on one entry. -/
def applyCeiling (c x : ℚ) : ℚ := if c < x then c else x

/-- The gradient entry returned by Ctc::Eval after the floor/ceiling pass
(ctc-loss.cc lines 80-81). -/
def diffEval (p : ℕ → ℕ → ℚ) (label : List ℕ) (T C t k : ℕ) : ℚ :=
  applyCeiling 1 (applyFloor (-1) (diffRawEval p label T C t k))

/-- Modelled from the spec: the batched alpha recursion of
ComputeCtcAlphaMSeq.  Sequence s occupies row t * N + s of the padded
buffer; the recursion visits only frames t below the sequence's own frame
count fn s, other rows keep the log-zero fill (0 linearly). -/
def alphaMSeq (N : ℕ) (fn : ℕ → ℕ) (labs : ℕ → List ℕ)
    (p : ℕ → ℕ → ℚ) : ℕ → ℕ → ℕ → ℚ
  | 0, s, pos =>
      if 0 < fn s ∧ (pos = 0 ∨ (pos = 1 ∧ 1 < 2 * (labs s).length + 1))
      then p (0 * N + s) (expLab (labs s) pos) else 0
  | t + 1, s, pos =>
      if t + 1 < fn s then
        (alphaMSeq N fn labs p t s pos +
          (if 1 ≤ pos then alphaMSeq N fn labs p t s (pos - 1) else 0) +
          (if 2 ≤ pos ∧ pos % 2 = 1 ∧
              expLab (labs s) pos ≠ expLab (labs s) (pos - 2)
           then alphaMSeq N fn labs p t s (pos - 2) else 0)) *
          p ((t + 1) * N + s) (expLab (labs s) pos)
      else 0

/-- Modelled from the spec: the batched beta recursion of
ComputeCtcBetaMSeq; d counts down from the padded last frame Tmax - 1, and
each sequence is initialized at its own last real frame fn s - 1 at its
own two final expanded positions, with rows beyond the real length left at
the log-zero fill. -/
def betaMSeq (Tmax N : ℕ) (fn : ℕ → ℕ) (labs : ℕ → List ℕ)
    (p : ℕ → ℕ → ℚ) : ℕ → ℕ → ℕ → ℚ
  | 0, s, pos =>
      if Tmax - 1 = fn s - 1 ∧
         (pos = 2 * (labs s).length + 1 - 1 ∨ pos = 2 * (labs s).length + 1 - 2)
      then 1 else 0
  | d + 1, s, pos =>
      if Tmax - 1 - (d + 1) = fn s - 1 then
        (if pos = 2 * (labs s).length + 1 - 1 ∨
            pos = 2 * (labs s).length + 1 - 2
         then 1 else 0)
      else if fn s - 1 < Tmax - 1 - (d + 1) then 0
      else
        betaMSeq Tmax N fn labs p d s pos *
          p ((Tmax - 1 - d) * N + s) (expLab (labs s) pos) +
        (if pos + 1 < 2 * (labs s).length + 1
         then betaMSeq Tmax N fn labs p d s (pos + 1) *
           p ((Tmax - 1 - d) * N + s) (expLab (labs s) (pos + 1)) else 0) +
        (if pos + 2 < 2 * (labs s).length + 1 ∧ pos % 2 = 1 ∧
            expLab (labs s) pos ≠ expLab (labs s) (pos + 2)
         then betaMSeq Tmax N fn labs p d s (pos + 2) *
           p ((Tmax - 1 - d) * N + s) (expLab (labs s) (pos + 2)) else 0)

/-- Per-sequence likelihood of EvalParallel (ctc-loss.cc lines 167-174),
read at the sequence's own last real frame and own final expanded
positions. -/
def pzxEvalParallel (N : ℕ) (fn : ℕ → ℕ) (labs : ℕ → List ℕ)
    (p : ℕ → ℕ → ℚ) (s : ℕ) : ℚ :=
  alphaMSeq N fn labs p (fn s - 1) s (2 * (labs s).length) +
  alphaMSeq N fn labs p (fn s - 1) s (2 * (labs s).length - 1)

/-- Batched soft occupancy, as gammaEval per sequence. -/
def gammaMSeq (Tmax N : ℕ) (fn : ℕ → ℕ) (labs : ℕ → List ℕ)
    (p : ℕ → ℕ → ℚ) (t s k : ℕ) : ℚ :=
  ∑ pos ∈ Finset.range (2 * (labs s).length + 1),
    if expLab (labs s) pos = k
    then alphaMSeq N fn labs p t s pos *
         betaMSeq Tmax N fn labs p (Tmax - 1 - t) s pos
    else 0

/-- Batched error term after MulElements; rows past a sequence's real
frame count stay at the kSetZero fill. -/
def ctcErrPMSeq (Tmax N : ℕ) (fn : ℕ → ℕ) (labs : ℕ → List ℕ)
    (p : ℕ → ℕ → ℚ) (t s k : ℕ) : ℚ :=
  if t < fn s
  then -(gammaMSeq Tmax N fn labs p t s k / pzxEvalParallel N fn labs p s)
  else 0

/-- Batched gradient before the policy and clipping (ctc-loss.cc lines
180-189) at row t * N + s. -/
def diffRawMSeq (Tmax N : ℕ) (fn : ℕ → ℕ) (labs : ℕ → List ℕ)
    (p : ℕ → ℕ → ℚ) (C t s k : ℕ) : ℚ :=
  ctcErrPMSeq Tmax N fn labs p t s k -
    p (t * N + s) k * ∑ kp ∈ Finset.range C, ctcErrPMSeq Tmax N fn labs p t s kp

/-- The gradient entry of Ctc::EvalParallel after the final floor/ceiling
pass (ctc-loss.cc lines 208-209), under the default stat-only policy
which leaves the gradient unchanged. -/
def diffEvalParallel (Tmax N : ℕ) (fn : ℕ → ℕ) (labs : ℕ → List ℕ)
    (p : ℕ → ℕ → ℚ) (C t s k : ℕ) : ℚ :=
  applyCeiling 1 (applyFloor (-1) (diffRawMSeq Tmax N fn labs p C t s k))

/-- Clamping to floor -1 then ceiling 1 lands in the interval. -/
lemma applyFloorCeiling_mem (x : ℚ) :
    -1 ≤ applyCeiling 1 (applyFloor (-1) x) ∧
      applyCeiling 1 (applyFloor (-1) x) ≤ 1 := by
  unfold applyFloor applyCeiling
  split_ifs <;> constructor <;> linarith

/-- C1: every gradient entry returned by Eval and by EvalParallel lies in
the interval from -1 to 1 after the floor/ceiling pass. -/
theorem ctc_c1_gradient_clipped (p : ℕ → ℕ → ℚ) (label : List ℕ)
    (T C t k Tmax N : ℕ) (fn : ℕ → ℕ) (labs : ℕ → List ℕ) (s : ℕ) :
    (-1 ≤ diffEval p label T C t k ∧ diffEval p label T C t k ≤ 1) ∧
    (-1 ≤ diffEvalParallel Tmax N fn labs p C t s k ∧
      diffEvalParallel Tmax N fn labs p C t s k ≤ 1) :=
  ⟨applyFloorCeiling_mem _, applyFloorCeiling_mem _⟩

/-- The label validation loop of Ctc::Eval (ctc-loss.cc line 44): every
label index must be below the class count. -/
def evalLabelsOk (label : List ℕ) (C : ℕ) : Bool :=
  label.all fun l => decide (l < C)

/-- The input validation of Ctc::EvalParallel (ctc-loss.cc lines 124 and
142-144): the padded frame count must be a multiple of the sequence count
and every label index below the class count. -/
def evalParallelInputOk (numFrames N : ℕ) (labels : List (List ℕ))
    (C : ℕ) : Bool :=
  decide (numFrames % N = 0) &&
    labels.all fun ls => ls.all fun l => decide (l < C)

/-- C7: Eval's validation fails exactly when some label index reaches the
class count, and EvalParallel's exactly when additionally the padded frame
count is not a multiple of the sequence count; on valid inputs neither
aborts. -/
theorem ctc_c7_validation (label : List ℕ) (C numFrames N : ℕ)
    (labels : List (List ℕ)) :
    (evalLabelsOk label C = false ↔ ∃ l ∈ label, C ≤ l) ∧
    (evalParallelInputOk numFrames N labels C = false ↔
      numFrames % N ≠ 0 ∨ ∃ ls ∈ labels, ∃ l ∈ ls, C ≤ l) := by
  constructor
  · rw [Bool.eq_false_iff]
    simp [evalLabelsOk, List.all_eq_true, Nat.not_lt]
  · rw [Bool.eq_false_iff]
    simp [evalParallelInputOk, List.all_eq_true, Nat.not_lt, not_and_or,
      not_forall]
    tauto

/-- The duplicate-collapsing loop of Ctc::ErrorRate / ErrorRateMSeq
(ctc-loss.cc lines 358-365), keeping each element that differs from its
predecessor. -/
def removeRepeatsAux (prev : ℕ) : List ℕ → List ℕ
  | [] => []
  | b :: rest => if b = prev then removeRepeatsAux prev rest
                 else b :: removeRepeatsAux b rest

/-- The collapse pass keeps the first frame and then filters repeats. -/
def removeRepeats : List ℕ → List ℕ
  | [] => []
  | a :: rest => a :: removeRepeatsAux a rest

/-- The greedy CTC decode of ErrorRate / ErrorRateMSeq: collapse
consecutive duplicates, then drop the blank class 0 (ctc-loss.cc lines
357-372 and 403-416). -/
def ctcDecode (data : List ℕ) : List ℕ :=
  (removeRepeats data).filter fun x => decide (x ≠ 0)

/-- C9: the greedy decode collapses consecutive duplicates and drops
blanks; on the arg-max sequence a a blank b b blank blank a it yields
a b a whenever a and b are distinct non-blank classes. -/
theorem ctc_c9_greedy_decode (a b : ℕ) (_hab : a ≠ b) (ha : a ≠ 0)
    (hb : b ≠ 0) :
    ctcDecode [a, a, 0, b, b, 0, 0, a] = [a, b, a] := by
  simp [ctcDecode, removeRepeats, removeRepeatsAux, Ne.symm ha, Ne.symm hb,
    ha, hb]

/-- Witness for ctc_c9_greedy_decode with classes 1 and 2. -/
theorem ctc_c9_greedy_decode_witness :
    ctcDecode [1, 1, 0, 2, 2, 0, 0, 1] = [1, 2, 1] :=
  ctc_c9_greedy_decode 1 2 (by decide) (by decide) (by decide)

/-- Transition weight of the expanded-label state graph: from position sp
at one frame to position s at the next, a path may stay (s = sp), advance
one (s = sp + 1), or skip a blank (s = sp + 2, landing on an odd label
position whose label differs from the one skipped from). -/
def transW (lab : ℕ → ℕ) (sp s : ℕ) : ℚ :=
  (if s = sp then 1 else 0) + (if s = sp + 1 then 1 else 0) +
    (if s = sp + 2 ∧ s % 2 = 1 ∧ lab s ≠ lab sp then 1 else 0)

lemma sum_ite_keep (S s : ℕ) (hs : s < S) (a : ℕ → ℚ) :
    (∑ sp ∈ Finset.range S, if s = sp then a sp else 0) = a s := by
  rw [Finset.sum_ite_eq]
  simp [hs]

lemma sum_ite_shift1 (S s : ℕ) (hs : s < S) (a : ℕ → ℚ) :
    (∑ sp ∈ Finset.range S, if s = sp + 1 then a sp else 0) =
      if 1 ≤ s then a (s - 1) else 0 := by
  cases s with
  | zero => simp
  | succ k =>
    simp only [add_left_inj]
    rw [Finset.sum_ite_eq]
    have hk : k < S := Nat.lt_of_succ_lt hs
    simp [hk]

lemma sum_ite_shift2 (S s : ℕ) (hs : s < S) (lab : ℕ → ℕ) (a : ℕ → ℚ) :
    (∑ sp ∈ Finset.range S,
        if s = sp + 2 ∧ s % 2 = 1 ∧ lab s ≠ lab sp then a sp else 0) =
      if 2 ≤ s ∧ s % 2 = 1 ∧ lab s ≠ lab (s - 2) then a (s - 2) else 0 := by
  match s with
  | 0 =>
    have h : ∀ sp : ℕ, ¬(0 = sp + 2) := by intro sp; omega
    simp [h]
  | 1 =>
    have h : ∀ sp : ℕ, ¬(1 = sp + 2) := by intro sp; omega
    simp [h]
  | (k + 2) =>
    simp only [add_left_inj, ite_and]
    rw [Finset.sum_ite_eq]
    have hk : k < S := by omega
    have h2 : 2 ≤ k + 2 := by omega
    have h3 : k + 2 - 2 = k := by omega
    simp only [Finset.mem_range, hk, if_true, h3]
    rw [if_pos h2]

/-- The alpha recurrence written as a sum over all source positions
weighted by the transition indicator. -/
lemma alphaLin_succ_sum (S : ℕ) (lab : ℕ → ℕ) (p : ℕ → ℕ → ℚ)
    (t s : ℕ) (hs : s < S) :
    alphaLin S lab p (t + 1) s =
      (∑ sp ∈ Finset.range S, transW lab sp s * alphaLin S lab p t sp) *
        p (t + 1) (lab s) := by
  have hsplit : (∑ sp ∈ Finset.range S,
      transW lab sp s * alphaLin S lab p t sp) =
      (∑ sp ∈ Finset.range S, if s = sp then alphaLin S lab p t sp else 0) +
      (∑ sp ∈ Finset.range S, if s = sp + 1 then alphaLin S lab p t sp else 0) +
      (∑ sp ∈ Finset.range S,
        if s = sp + 2 ∧ s % 2 = 1 ∧ lab s ≠ lab sp
        then alphaLin S lab p t sp else 0) := by
    rw [← Finset.sum_add_distrib, ← Finset.sum_add_distrib]
    apply Finset.sum_congr rfl
    intro sp _
    simp [transW, add_mul, ite_mul]
  rw [hsplit, sum_ite_keep S s hs, sum_ite_shift1 S s hs,
    sum_ite_shift2 S s hs lab]
  rfl

/-- The beta recurrence written as a sum over all target positions
weighted by the transition indicator. -/
lemma betaLin_succ_sum (T S : ℕ) (lab : ℕ → ℕ) (p : ℕ → ℕ → ℚ)
    (d σ : ℕ) (hσ : σ < S) :
    betaLin T S lab p (d + 1) σ =
      ∑ sp ∈ Finset.range S, transW lab σ sp *
        (betaLin T S lab p d sp * p (T - 1 - d) (lab sp)) := by
  have hsplit : (∑ sp ∈ Finset.range S, transW lab σ sp *
      (betaLin T S lab p d sp * p (T - 1 - d) (lab sp))) =
      (∑ sp ∈ Finset.range S,
        if sp = σ then betaLin T S lab p d sp * p (T - 1 - d) (lab sp) else 0) +
      (∑ sp ∈ Finset.range S,
        if sp = σ + 1 then betaLin T S lab p d sp * p (T - 1 - d) (lab sp) else 0) +
      (∑ sp ∈ Finset.range S,
        if sp = σ + 2 ∧ sp % 2 = 1 ∧ lab sp ≠ lab σ
        then betaLin T S lab p d sp * p (T - 1 - d) (lab sp) else 0) := by
    rw [← Finset.sum_add_distrib, ← Finset.sum_add_distrib]
    apply Finset.sum_congr rfl
    intro sp _
    simp [transW, add_mul, ite_mul]
  have h3 : (∑ sp ∈ Finset.range S,
      if sp = σ + 2 ∧ sp % 2 = 1 ∧ lab sp ≠ lab σ
      then betaLin T S lab p d sp * p (T - 1 - d) (lab sp) else 0) =
      if σ + 2 < S ∧ σ % 2 = 1 ∧ lab σ ≠ lab (σ + 2)
      then betaLin T S lab p d (σ + 2) * p (T - 1 - d) (lab (σ + 2)) else 0 := by
    have hmod : ((σ + 2) % 2 = 1) ↔ (σ % 2 = 1) := by omega
    have hlabiff : (lab (σ + 2) ≠ lab σ) ↔ (lab σ ≠ lab (σ + 2)) := ne_comm
    simp only [ite_and]
    rw [Finset.sum_ite_eq']
    simp only [Finset.mem_range, hmod, hlabiff, ← ite_and]
  rw [hsplit, h3, Finset.sum_ite_eq', Finset.sum_ite_eq']
  simp only [Finset.mem_range, hσ, if_true]
  rfl

/-- The alpha-beta pairing at matched frames: frame T-1-d of alpha against
level d of beta.  Because alpha carries the emission of its own frame and
beta does not, this quantity is the total path mass, independent of d. -/
def ctcInv (T S : ℕ) (lab : ℕ → ℕ) (p : ℕ → ℕ → ℚ) (d : ℕ) : ℚ :=
  ∑ σ ∈ Finset.range S, alphaLin S lab p (T - 1 - d) σ * betaLin T S lab p d σ

lemma ctcInv_step (T S : ℕ) (lab : ℕ → ℕ) (p : ℕ → ℕ → ℚ) (d : ℕ)
    (hd : d + 1 ≤ T - 1) :
    ctcInv T S lab p (d + 1) = ctcInv T S lab p d := by
  unfold ctcInv
  have ht : T - 1 - (d + 1) + 1 = T - 1 - d := by omega
  calc (∑ σ ∈ Finset.range S,
        alphaLin S lab p (T - 1 - (d + 1)) σ * betaLin T S lab p (d + 1) σ)
      = ∑ σ ∈ Finset.range S, ∑ sp ∈ Finset.range S,
          alphaLin S lab p (T - 1 - (d + 1)) σ * (transW lab σ sp *
            (betaLin T S lab p d sp * p (T - 1 - d) (lab sp))) := by
        apply Finset.sum_congr rfl
        intro σ hσ
        rw [betaLin_succ_sum T S lab p d σ (Finset.mem_range.mp hσ),
          Finset.mul_sum]
    _ = ∑ sp ∈ Finset.range S, ∑ σ ∈ Finset.range S,
          alphaLin S lab p (T - 1 - (d + 1)) σ * (transW lab σ sp *
            (betaLin T S lab p d sp * p (T - 1 - d) (lab sp))) :=
        Finset.sum_comm
    _ = ∑ sp ∈ Finset.range S,
          ((∑ σ ∈ Finset.range S,
            transW lab σ sp * alphaLin S lab p (T - 1 - (d + 1)) σ) *
            p (T - 1 - d) (lab sp)) * betaLin T S lab p d sp := by
        apply Finset.sum_congr rfl
        intro sp _
        rw [Finset.sum_mul, Finset.sum_mul]
        apply Finset.sum_congr rfl
        intro σ _
        ring
    _ = ∑ sp ∈ Finset.range S,
          alphaLin S lab p (T - 1 - d) sp * betaLin T S lab p d sp := by
        apply Finset.sum_congr rfl
        intro sp hsp
        have ha := alphaLin_succ_sum S lab p (T - 1 - (d + 1)) sp
          (Finset.mem_range.mp hsp)
        rw [ht] at ha
        rw [← ha]

lemma ctcInv_const (T S : ℕ) (lab : ℕ → ℕ) (p : ℕ → ℕ → ℚ) :
    ∀ d, d ≤ T - 1 → ctcInv T S lab p d = ctcInv T S lab p 0 := by
  intro d
  induction d with
  | zero => intro _; rfl
  | succ k ih =>
    intro hk
    rw [ctcInv_step T S lab p k hk]
    exact ih (by omega)

lemma ctcInv_zero (T S : ℕ) (lab : ℕ → ℕ) (p : ℕ → ℕ → ℚ) (hS : 3 ≤ S) :
    ctcInv T S lab p 0 =
      alphaLin S lab p (T - 1) (S - 1) + alphaLin S lab p (T - 1) (S - 2) := by
  unfold ctcInv
  have hsplit : ∀ σ : ℕ,
      alphaLin S lab p (T - 1 - 0) σ * betaLin T S lab p 0 σ =
      (if σ = S - 1 then alphaLin S lab p (T - 1) σ else 0) +
      (if σ = S - 2 then alphaLin S lab p (T - 1) σ else 0) := by
    intro σ
    show alphaLin S lab p (T - 1 - 0) σ *
      (if σ = S - 1 ∨ σ = S - 2 then 1 else 0) = _
    have hne : S - 1 ≠ S - 2 := by omega
    by_cases h1 : σ = S - 1
    · subst h1
      simp [hne]
    · by_cases h2 : σ = S - 2
      · subst h2
        simp [h1]
      · simp [h1, h2]
  simp only [hsplit]
  rw [Finset.sum_add_distrib, Finset.sum_ite_eq', Finset.sum_ite_eq']
  have hm1 : S - 1 < S := by omega
  have hm2 : S - 2 < S := by omega
  simp [Finset.mem_range, hm1, hm2]

lemma ctcInv_last (T S : ℕ) (lab : ℕ → ℕ) (p : ℕ → ℕ → ℚ)
    (hS : 3 ≤ S) (hT : 1 ≤ T) :
    ctcInv T S lab p (T - 1) =
      p 0 (lab 0) * betaLin T S lab p (T - 1) 0 +
      p 0 (lab 1) * betaLin T S lab p (T - 1) 1 := by
  unfold ctcInv
  have h0 : T - 1 - (T - 1) = 0 := by omega
  rw [h0]
  have hsplit : ∀ σ : ℕ,
      alphaLin S lab p 0 σ * betaLin T S lab p (T - 1) σ =
      (if σ = 0 then p 0 (lab σ) * betaLin T S lab p (T - 1) σ else 0) +
      (if σ = 1 then p 0 (lab σ) * betaLin T S lab p (T - 1) σ else 0) := by
    intro σ
    show (if σ = 0 ∨ (σ = 1 ∧ 1 < S) then p 0 (lab σ) else 0) *
      betaLin T S lab p (T - 1) σ = _
    have h1S : 1 < S := by omega
    by_cases h1 : σ = 0
    · subst h1
      simp
    · by_cases h2 : σ = 1
      · subst h2
        simp [h1S]
      · simp [h1, h2]
  simp only [hsplit]
  rw [Finset.sum_add_distrib, Finset.sum_ite_eq', Finset.sum_ite_eq']
  have hm1 : 0 < S := by omega
  have hm2 : 1 < S := by omega
  simp [Finset.mem_range, hm1, hm2]

/-- C6: the total likelihood read from the alpha table equals the value
computed from the beta table at frame 0 combined with the first-frame
posteriors of the two entry positions (blank at position 0, the first
label at position 1), exactly, in the linear-domain semantics. -/
theorem ctc_c6_alpha_beta_consistency (p : ℕ → ℕ → ℚ) (label : List ℕ)
    (T : ℕ) (hT : 1 ≤ T) (hL : 1 ≤ label.length) :
    pzxEval p label T =
      betaLin T (2 * label.length + 1) (expLab label) p (T - 1) 0 *
        p 0 (expLab label 0) +
      betaLin T (2 * label.length + 1) (expLab label) p (T - 1) 1 *
        p 0 (expLab label 1) := by
  have hS : 3 ≤ 2 * label.length + 1 := by omega
  have h1 := ctcInv_zero T (2 * label.length + 1) (expLab label) p hS
  have h2 := ctcInv_last T (2 * label.length + 1) (expLab label) p hS hT
  have h3 := ctcInv_const T (2 * label.length + 1) (expLab label) p (T - 1)
    (le_refl _)
  have e1 : 2 * label.length + 1 - 1 = 2 * label.length := by omega
  have e2 : 2 * label.length + 1 - 2 = 2 * label.length - 1 := by omega
  rw [e1, e2] at h1
  calc pzxEval p label T
      = ctcInv T (2 * label.length + 1) (expLab label) p 0 := h1.symm
    _ = ctcInv T (2 * label.length + 1) (expLab label) p (T - 1) := h3.symm
    _ = p 0 (expLab label 0) *
          betaLin T (2 * label.length + 1) (expLab label) p (T - 1) 0 +
        p 0 (expLab label 1) *
          betaLin T (2 * label.length + 1) (expLab label) p (T - 1) 1 := h2
    _ = _ := by ring

/-- With a single sequence whose padded length equals its real frame
count, the batched alpha table coincides with the single-sequence one on
all real frames. -/
lemma alphaMSeq_one_seq (fn : ℕ → ℕ) (labs : ℕ → List ℕ)
    (p : ℕ → ℕ → ℚ) (T : ℕ) (label : List ℕ)
    (hfn : fn 0 = T) (hlabs : labs 0 = label) :
    ∀ t, t < T → ∀ pos, alphaMSeq 1 fn labs p t 0 pos =
      alphaLin (2 * label.length + 1) (expLab label) p t pos := by
  intro t
  induction t with
  | zero =>
    intro ht pos
    simp only [alphaMSeq, alphaLin]
    rw [hfn, hlabs]
    have h0 : 0 < T := ht
    simp [h0]
  | succ k ih =>
    intro ht pos
    have hk : k < T := by omega
    simp only [alphaMSeq, alphaLin]
    rw [hfn, if_pos ht]
    simp only [ih hk]
    rw [hlabs]
    simp only [Nat.mul_one, Nat.add_zero]

/-- With a single sequence whose padded length equals its real frame
count, the batched beta table coincides with the single-sequence one on
all real frames. -/
lemma betaMSeq_one_seq (fn : ℕ → ℕ) (labs : ℕ → List ℕ)
    (p : ℕ → ℕ → ℚ) (T : ℕ) (label : List ℕ)
    (hfn : fn 0 = T) (hlabs : labs 0 = label) :
    ∀ d, d ≤ T - 1 → ∀ pos, betaMSeq T 1 fn labs p d 0 pos =
      betaLin T (2 * label.length + 1) (expLab label) p d pos := by
  intro d
  induction d with
  | zero =>
    intro _ pos
    simp only [betaMSeq, betaLin]
    rw [hfn, hlabs]
    simp
  | succ k ih =>
    intro hd pos
    have hk : k ≤ T - 1 := by omega
    have hne1 : ¬(T - 1 - (k + 1) = fn 0 - 1) := by rw [hfn]; omega
    have hne2 : ¬(fn 0 - 1 < T - 1 - (k + 1)) := by rw [hfn]; omega
    simp only [betaMSeq, betaLin]
    rw [if_neg hne1, if_neg hne2]
    simp only [ih hk]
    rw [hlabs]
    simp only [Nat.mul_one, Nat.add_zero]

/-- The per-sequence likelihood of the batched path agrees with the
single-sequence one. -/
lemma pzx_one_seq (fn : ℕ → ℕ) (labs : ℕ → List ℕ) (p : ℕ → ℕ → ℚ)
    (T : ℕ) (label : List ℕ) (hT : 1 ≤ T)
    (hfn : fn 0 = T) (hlabs : labs 0 = label) :
    pzxEvalParallel 1 fn labs p 0 = pzxEval p label T := by
  unfold pzxEvalParallel pzxEval
  rw [hfn, hlabs]
  rw [alphaMSeq_one_seq fn labs p T label hfn hlabs (T - 1) (by omega),
    alphaMSeq_one_seq fn labs p T label hfn hlabs (T - 1) (by omega)]

/-- The batched occupancy agrees with the single-sequence one on real
frames. -/
lemma gamma_one_seq (fn : ℕ → ℕ) (labs : ℕ → List ℕ) (p : ℕ → ℕ → ℚ)
    (T : ℕ) (label : List ℕ) (t k : ℕ) (ht : t < T)
    (hfn : fn 0 = T) (hlabs : labs 0 = label) :
    gammaMSeq T 1 fn labs p t 0 k = gammaEval p label T t k := by
  unfold gammaMSeq gammaEval
  rw [hlabs]
  apply Finset.sum_congr rfl
  intro pos _
  rw [alphaMSeq_one_seq fn labs p T label hfn hlabs t ht,
    betaMSeq_one_seq fn labs p T label hfn hlabs (T - 1 - t) (by omega)]

/-- The batched post-MulElements error term agrees with the
single-sequence one on real frames. -/
lemma ctcErrP_one_seq (fn : ℕ → ℕ) (labs : ℕ → List ℕ) (p : ℕ → ℕ → ℚ)
    (T : ℕ) (label : List ℕ) (t k : ℕ) (ht : t < T) (hT : 1 ≤ T)
    (hfn : fn 0 = T) (hlabs : labs 0 = label) :
    ctcErrPMSeq T 1 fn labs p t 0 k = ctcErrPEval p label T t k := by
  unfold ctcErrPMSeq ctcErrPEval
  rw [hfn, if_pos ht]
  rw [gamma_one_seq fn labs p T label t k ht hfn hlabs,
    pzx_one_seq fn labs p T label hT hfn hlabs]

/-- C5: a batch of exactly one sequence whose padded frame count equals
its real frame count yields, for every real frame and class, the same
likelihood and the same clipped gradient as the single-sequence path
(under the default stat-only policy, which leaves the gradient
unchanged). -/
theorem ctc_c5_single_sequence_equiv (p : ℕ → ℕ → ℚ) (label : List ℕ)
    (T C : ℕ) (fn : ℕ → ℕ) (labs : ℕ → List ℕ)
    (hT : 1 ≤ T) (hfn : fn 0 = T) (hlabs : labs 0 = label) :
    pzxEvalParallel 1 fn labs p 0 = pzxEval p label T ∧
    ∀ t, t < T → ∀ k, diffEvalParallel T 1 fn labs p C t 0 k =
      diffEval p label T C t k := by
  refine ⟨pzx_one_seq fn labs p T label hT hfn hlabs, ?_⟩
  intro t ht k
  unfold diffEvalParallel diffEval
  congr 1
  congr 1
  unfold diffRawMSeq diffRawEval
  rw [ctcErrP_one_seq fn labs p T label t k ht hT hfn hlabs]
  congr 1
  rw [Nat.mul_one, Nat.add_zero]
  congr 1
  apply Finset.sum_congr rfl
  intro kp _
  rw [ctcErrP_one_seq fn labs p T label t kp ht hT hfn hlabs]

/-- Concrete posterior used by witnesses of the forward-backward layer. -/
def pSample : ℕ → ℕ → ℚ := fun t k => (t : ℚ) + (k : ℚ) + 1

/-- Witness for ctc_c6_alpha_beta_consistency at label [1], two frames,
and the concrete posterior pSample. -/
theorem ctc_c6_alpha_beta_consistency_witness :
    (1 ≤ 2 ∧ 1 ≤ ([1] : List ℕ).length) ∧
    pzxEval pSample [1] 2 =
      betaLin 2 (2 * ([1] : List ℕ).length + 1) (expLab [1]) pSample
          (2 - 1) 0 * pSample 0 (expLab [1] 0) +
        betaLin 2 (2 * ([1] : List ℕ).length + 1) (expLab [1]) pSample
          (2 - 1) 1 * pSample 0 (expLab [1] 1) :=
  ⟨⟨by decide, by decide⟩,
    ctc_c6_alpha_beta_consistency pSample [1] 2 (by decide) (by decide)⟩

/-- Witness for ctc_c5_single_sequence_equiv at a concrete one-frame,
one-label instance. -/
theorem ctc_c5_single_sequence_equiv_witness :
    ((fun _ : ℕ => 1) 0 = 1 ∧ (fun _ : ℕ => ([1] : List ℕ)) 0 = [1]) ∧
    pzxEvalParallel 1 (fun _ => 1) (fun _ => [1]) pSample 0 =
      pzxEval pSample [1] 1 :=
  ⟨⟨rfl, rfl⟩, (ctc_c5_single_sequence_equiv pSample [1] 1 2 (fun _ => 1)
    (fun _ => [1]) (by decide) rfl rfl).1⟩
